import Mathlib

/-!
Verification of the training orchestrator in
`code/examples/big_ae/run_lm_vae_pretraining_phdist_beta.py` (Optimus).

Shallow embedding conventions:
* Python ints are `ℕ`/`ℤ`; Python floats that only carry scheduler weights and
  losses are modelled as `ℚ` (all values manipulated by the claims are exact
  small rationals, and the one floating-point-sensitive computation,
  `gpu_indices`, is evaluated only at small concrete inputs where binary
  floating point and exact rationals agree).
* Fallible code returns `Except String`; an uncaught Python exception is an
  `Except.error`.
* The external collaborators (model forward/backward, data loader contents,
  schedule generator, optimizer numerics) are opaque: only the control-flow
  facts the source uses about them are modelled (batch counts per file, the
  scalar loss values as an abstract function, the precomputed beta list).
-/

namespace Optimus

/-! ### Annealing-schedule consumer / weight gate

Source, `train`, lines 534-538:
```
if args.use_beta_schedule:
    if global_step >= len(beta_t_list):
        beta_t = 1.0
    else:
        beta_t = beta_t_list[global_step]
```
`betaAtStep` is the value assigned to `beta_t` by this block. -/
def betaAtStep (beta_t_list : List ℚ) (global_step : ℕ) : ℚ :=
  if beta_t_list.length ≤ global_step then 1 else beta_t_list.getD global_step 0

/-! ### Mode gate

Source, `train`, lines 546-554:
```
model_vae.module.args.beta = beta_t
if beta_t == 0.0:
    model_vae.module.args.fb_mode = 0
else:
    model_vae.module.args.fb_mode = 1
if args.use_deterministic_connect:
    model_vae.module.args.fb_mode = 2
```
`fbModeOf` is the final value of `fb_mode` pushed into the model. -/
def fbModeOf (use_deterministic_connect : Bool) (beta_t : ℚ) : ℕ :=
  let m := if beta_t = 0 then 0 else 1
  if use_deterministic_connect then 2 else m

/-! ### Topology resolver (`gpu_indices`, lines 187-214)

`np.arange(a, b)` with the default step 1 and float endpoints: the element
count is `max 0 ⌈b - a⌉` and element `i` is `a + i`; `⌈b - a⌉ = -⌊a - b⌋`. -/
def arange1 (a b : ℚ) : List ℚ :=
  (List.range (-⌊a - b⌋).toNat).map (fun i => a + (i : ℚ))

/-- The `divisible=True` branch of `gpu_indices` (lines 201-209, 213):
`ngpu = gpu_count / local_size` is Python true division (the file does
`from __future__ import division`), `gpus = np.arange(local_rank * ngpu,
(local_rank + 1) * ngpu)`, and `ret_gpus = [int(g) for g in gpus]`.
`int` truncates toward zero; every produced value is nonnegative here, where
truncation and floor agree. -/
def gpu_indices_div (gpu_count local_size local_rank : ℕ) : List ℤ :=
  let ngpu : ℚ := (gpu_count : ℚ) / (local_size : ℚ)
  (arange1 ((local_rank : ℚ) * ngpu) (((local_rank : ℚ) + 1) * ngpu)).map
    (fun g => ⌊g⌋)

/-- The `divisible=False` branch (line 211):
`np.array_split(range(gpu_count), local_size)[local_rank]`: the first
`gpu_count % local_size` blocks have size `gpu_count / local_size + 1`, the
rest have size `gpu_count / local_size`. -/
def array_split_block (gpu_count local_size local_rank : ℕ) : List ℤ :=
  let q := gpu_count / local_size
  let m := gpu_count % local_size
  let start := local_rank * q + min local_rank m
  let size := q + (if local_rank < m then 1 else 0)
  (List.range size).map (fun i => ((start + i : ℕ) : ℤ))

/-- `gpu_indices` (lines 187-214).  The two `assert` statements become
`Except.error` (an `AssertionError` aborts the process).  `gpu_count` is
`len(get_gpus())`, the host's visible device count; `local_size` and
`local_rank` come from the environment and are arbitrary ints. -/
def gpu_indices (gpu_count : ℕ) (local_size local_rank : ℤ) (divisible : Bool) :
    Except String (List ℤ) :=
  if ¬(0 ≤ local_rank ∧ local_rank < local_size) then
    .error "Invalid local_rank"
  else if ¬(local_size ≤ (gpu_count : ℤ) ∧ 0 < local_size) then
    .error "GPU count must be at least LOCAL_SIZE and LOCAL_SIZE must be positive"
  else
    .ok (if divisible then gpu_indices_div gpu_count local_size.toNat local_rank.toNat
         else array_split_block gpu_count local_size.toNat local_rank.toNat)

/-! ### Checkpoint manager (`save_checkpoint`, lines 282-374) -/

/-- An observable filesystem side effect of `save_checkpoint`. -/
inductive FsEffect where
  | mkdir (path : String)
  | write (path : String)
deriving DecidableEq

def FsEffect.isMkdir : FsEffect → Bool
  | .mkdir _ => true
  | .write _ => false

/-- Filesystem effects of one completed `save_checkpoint(model, opt, global_step, args)`
call (lines 282-374), in program order.  Directory creation (lines 292-295 and
356-357) happens only when the directory is absent and `args.local_rank in [-1, 0]`.
The artifact writes themselves (`save_pretrained`, `torch.save`) are not
rank-gated inside `save_checkpoint`.  In the philly branch each write is
retried until it succeeds, so the completed-call effects coincide with the
strict branch up to one quirk: the non-philly branch saves the decoder args
under `training_encoder_args.bin` (line 338) while the philly branch uses
`training_decoder_args.bin` (line 331). -/
def save_checkpoint_fs (local_rank : ℤ) (use_philly : Bool) (output_dir : String)
    (global_step : ℕ) (enc_exists dec_exists full_exists : Bool) : List FsEffect :=
  let enc_dir := output_dir ++ "/checkpoint-encoder-" ++ toString global_step
  let dec_dir := output_dir ++ "/checkpoint-decoder-" ++ toString global_step
  let full_dir := output_dir ++ "/checkpoint-full-" ++ toString global_step
  let dec_args_name := if use_philly then "/training_decoder_args.bin"
    else "/training_encoder_args.bin"
  (if ¬enc_exists = true ∧ (local_rank = -1 ∨ local_rank = 0) then
      [FsEffect.mkdir enc_dir] else []) ++
  (if ¬dec_exists = true ∧ (local_rank = -1 ∨ local_rank = 0) then
      [FsEffect.mkdir dec_dir] else []) ++
  [FsEffect.write enc_dir, FsEffect.write (enc_dir ++ "/training_encoder_args.bin"),
   FsEffect.write dec_dir, FsEffect.write (dec_dir ++ dec_args_name)] ++
  (if ¬full_exists = true ∧ (local_rank = -1 ∨ local_rank = 0) then
      [FsEffect.mkdir full_dir] else []) ++
  [FsEffect.write (full_dir ++ "/training.bin")]

/-- The `args.use_philly` retry loop for one artifact (lines 360-371):
```
save_solid = False
n_save_attempts = 0
while not save_solid:
    try:
        n_save_attempts += 1
        torch.save(...)
        save_solid = True
    except:
        pass
```
`succeeds k` tells whether the underlying save dependency succeeds on its
`k`-th attempt (0-based).  The Python loop is unbounded; `fuel` bounds the
recursion, and every claim supplies enough fuel for the oracle at hand.
Returns the final `n_save_attempts` on success. -/
def resilient_save (succeeds : ℕ → Bool) : ℕ → ℕ → Option ℕ
  | 0, _ => none
  | fuel + 1, attempts =>
    if succeeds attempts then some (attempts + 1)
    else resilient_save succeeds fuel (attempts + 1)

/-- The strict (non-philly) branch (lines 372-374): a single attempt whose
failure propagates. -/
def strict_save (succeeds : ℕ → Bool) : Except String Unit :=
  if succeeds 0 then .ok () else .error "save failed"

/-- Injected-fault oracle: fails on attempts `0, …, N-1` and succeeds from
attempt `N` on, i.e. fails exactly `N` times then succeeds. -/
def failsExactly (N : ℕ) : ℕ → Bool := fun k => decide (N ≤ k)

/-! ### Training orchestrator (`train`, lines 377-650)

The loop is embedded as a pure state-transition function over an explicit
trace.  External collaborators are abstracted exactly where the source calls
them: the data loader yields `batchesPerFile` batches per file, the model
call `model_vae(inputs, labels)` yields an abstract scalar loss `lossOf`,
`optimizer.step()` / `scheduler.step()` / `zero_grad()` have no observable
effect on the orchestrator state beyond the events we record, and the
schedule generator's output is the given `betaList`.  TensorBoard/stdout
logging is a metrics sink with no modelled effect. -/

/-- One batch-level forward/backward, as observed by the trace: the weight
and `fb_mode` pushed into the model just before `model_vae(inputs, labels)`
(lines 534-556), together with the loop coordinates and the value of
`global_step` at that moment. -/
structure BatchEv where
  epoch : ℕ
  fileIdx : ℕ
  stepInFile : ℕ
  gsBefore : ℕ
  beta : ℚ
  fbMode : ℕ
deriving DecidableEq

/-- One accumulation-boundary event (lines 595-609): gradient clipping,
`optimizer.step()`, `scheduler.step()`, `zero_grad()` and the `global_step`
increment all happen together here; `gsAfter` is `global_step` right after
the increment. -/
structure OptEv where
  epoch : ℕ
  fileIdx : ℕ
  stepInFile : ℕ
  gsAfter : ℕ
deriving DecidableEq

/-- The configuration slice of `args` (plus collaborator abstractions) that
`train` reads.  `dataloaderLen` is `len(train_dataloader)` (used only to
derive the epoch count when `max_steps > 0`, lines 391-397); `numFiles` is
`len(list(files.glob("*seq64*.json")))` (line 457); `batchesPerFile` is the
number of batches the loader yields per file (line 512); `lossOf e f s` is
the batch-averaged combined loss the model collaborator returns for the
batch at coordinates `(e, f, s)`. -/
structure TrainCfg where
  numTrainEpochs : ℕ
  numFiles : ℕ
  batchesPerFile : ℕ
  dataloaderLen : ℕ
  gradAccum : ℕ
  maxSteps : ℤ
  useBetaSchedule : Bool
  useDeterministic : Bool
  betaList : List ℚ
  localRank : ℤ
  saveSteps : ℤ
  usePhilly : Bool
  lossOf : ℕ → ℕ → ℕ → ℚ

/-- The mutable state of `train` (lines 476-499) plus the recorded trace:
`gs` is `global_step`, `beta_t` the persistent weight variable initialised
to `0.0` at line 499, `trLoss` is `tr_loss`; `saves` records the
`global_step` value of every `save_checkpoint` call made from the loop
(lines 635-640). -/
structure TrainSt where
  gs : ℕ
  beta_t : ℚ
  trLoss : ℚ
  batches : List BatchEv
  opts : List OptEv
  saves : List ℕ
deriving DecidableEq

/-- The batch event built at lines 534-554: the weight gate updates `beta_t`
only when `args.use_beta_schedule` is set, then the weight and the derived
`fb_mode` are pushed into the model. -/
def pbEvent (cfg : TrainCfg) (e f s : ℕ) (st : TrainSt) : BatchEv :=
  ⟨e, f, s, st.gs,
   if cfg.useBetaSchedule then betaAtStep cfg.betaList st.gs else st.beta_t,
   fbModeOf cfg.useDeterministic
     (if cfg.useBetaSchedule then betaAtStep cfg.betaList st.gs else st.beta_t)⟩

/-- Lines 595-640: on an accumulation boundary (`(step + 1) %
gradient_accumulation_steps == 0`) clip, step the optimizer and scheduler,
zero the gradients, increment `global_step`, and — when `local_rank in
[-1, 0]`, `save_steps > 0` and `global_step % save_steps == 0` — call
`save_checkpoint`. -/
def pbAccum (cfg : TrainCfg) (e f s : ℕ) (st : TrainSt) : TrainSt :=
  if (s + 1) % cfg.gradAccum = 0 then
    if (cfg.localRank = -1 ∨ cfg.localRank = 0) ∧ 0 < cfg.saveSteps ∧
        ((st.gs + 1 : ℕ) : ℤ) % cfg.saveSteps = 0 then
      { st with gs := st.gs + 1, opts := st.opts ++ [⟨e, f, s, st.gs + 1⟩],
                saves := st.saves ++ [st.gs + 1] }
    else
      { st with gs := st.gs + 1, opts := st.opts ++ [⟨e, f, s, st.gs + 1⟩] }
  else st

/-- One iteration of the per-batch loop body (lines 512-644): build and push
the weight/mode, run the model (`lossOf`), scale the loss by
`1/gradient_accumulation_steps` when it exceeds 1 (lines 585-586),
accumulate `tr_loss` (line 594), handle the accumulation boundary, and
finally report whether `args.max_steps > 0 and global_step > args.max_steps`
(lines 642-644) requests a `break` of this innermost loop. -/
def processBatch (cfg : TrainCfg) (e f s : ℕ) (st : TrainSt) : TrainSt × Bool :=
  let ev := pbEvent cfg e f s st
  let st2 := pbAccum cfg e f s
    { st with beta_t := ev.beta,
              trLoss := st.trLoss +
                (if 1 < cfg.gradAccum then cfg.lossOf e f s / (cfg.gradAccum : ℚ)
                 else cfg.lossOf e f s),
              batches := st.batches ++ [ev] }
  (st2, decide (0 < cfg.maxSteps ∧ cfg.maxSteps < (st2.gs : ℤ)))

/-- `for step, batch in enumerate(train_dataloader)` (line 512) over the
`n` remaining batches starting at step index `s`; the `break` at line 644
exits only this loop. -/
def runBatches (cfg : TrainCfg) (e f : ℕ) : ℕ → ℕ → TrainSt → TrainSt
  | 0, _, st => st
  | n + 1, s, st =>
    let r := processBatch cfg e f s st
    if r.2 then r.1 else runBatches cfg e f n (s + 1) r.1

/-- All batches of one file. -/
def processFile (cfg : TrainCfg) (e f : ℕ) (st : TrainSt) : TrainSt :=
  runBatches cfg e f cfg.batchesPerFile 0 st

/-- `for idx_file in range(num_files - 1)` (line 506), iterating `n`
remaining files starting at file index `f`.  There is no file-level break:
after the inner loop finishes (or breaks), the next file begins. -/
def runFiles (cfg : TrainCfg) (e : ℕ) : ℕ → ℕ → TrainSt → TrainSt
  | 0, _, st => st
  | n + 1, f, st => runFiles cfg e n (f + 1) (processFile cfg e f st)

/-- `for epoch in range(int(args.num_train_epochs))` (line 504); the
per-epoch `train_dataloader.reset()` (line 505) touches no orchestrator
state.  There is no epoch-level break either. -/
def runEpochs (cfg : TrainCfg) : ℕ → ℕ → TrainSt → TrainSt
  | 0, _, st => st
  | n + 1, e, st => runEpochs cfg n (e + 1) (runFiles cfg e (cfg.numFiles - 1) 0 st)

/-- Lines 391-397: when `max_steps > 0`, `num_train_epochs` is recomputed as
`max_steps // (len(train_dataloader) // gradient_accumulation_steps) + 1`;
otherwise the configured value stands.  (Python would raise
`ZeroDivisionError` when the inner quotient is 0; claims never touch that
corner.) -/
def effEpochs (cfg : TrainCfg) : ℕ :=
  if 0 < cfg.maxSteps then
    cfg.maxSteps.toNat / (cfg.dataloaderLen / cfg.gradAccum) + 1
  else cfg.numTrainEpochs

/-- Line 476-499: `global_step = 0`, `tr_loss = 0.0`, `beta_t = 0.0`. -/
def initSt : TrainSt := ⟨0, 0, 0, [], [], []⟩

/-- The whole loop nest of `train`. -/
def trainRun (cfg : TrainCfg) : TrainSt :=
  runEpochs cfg (effEpochs cfg) 0 initSt

/-- Line 650: `return global_step, tr_loss / global_step, optimizer`.
Python raises `ZeroDivisionError` when `global_step == 0`. -/
def trainResult (cfg : TrainCfg) : Except String (ℕ × ℚ) :=
  let st := trainRun cfg
  if st.gs = 0 then .error "ZeroDivisionError"
  else .ok (st.gs, st.trLoss / (st.gs : ℚ))

/-- `main` (lines 970-1208), reduced to the ordering fact the claims need:
`gpu_indices` runs at line 1036, before `train` is ever entered at line
1191; an `AssertionError` there aborts the process before any training
work. -/
def main_run (gpu_count : ℕ) (local_size local_rank : ℤ) (divisible : Bool)
    (cfg : TrainCfg) : Except String (ℕ × ℚ) :=
  match gpu_indices gpu_count local_size local_rank divisible with
  | .error e => .error e
  | .ok _ => trainResult cfg

/-- Filesystem effects produced by the calls to `save_checkpoint` made from
inside `train` (line 640), for a run starting from empty target directories.
(`dirExists` flags are `false` on the first save of a step; later saves of
the same run use fresh step numbers, so absence is the faithful default.) -/
def train_fs_effects (cfg : TrainCfg) (output_dir : String) : List FsEffect :=
  (trainRun cfg).saves.foldl
    (fun acc gs =>
      acc ++ save_checkpoint_fs cfg.localRank cfg.usePhilly output_dir gs
        false false false)
    []

/-! ### Batch-level lemmas -/

lemma pbAccum_batches (cfg : TrainCfg) (e f s : ℕ) (st : TrainSt) :
    (pbAccum cfg e f s st).batches = st.batches := by
  unfold pbAccum; split
  · split <;> rfl
  · rfl

lemma pbAccum_beta_t (cfg : TrainCfg) (e f s : ℕ) (st : TrainSt) :
    (pbAccum cfg e f s st).beta_t = st.beta_t := by
  unfold pbAccum; split
  · split <;> rfl
  · rfl

lemma pbAccum_gs (cfg : TrainCfg) (e f s : ℕ) (st : TrainSt) :
    (pbAccum cfg e f s st).gs =
      if (s + 1) % cfg.gradAccum = 0 then st.gs + 1 else st.gs := by
  unfold pbAccum; split
  · split <;> rfl
  · rfl

lemma pbAccum_opts (cfg : TrainCfg) (e f s : ℕ) (st : TrainSt) :
    (pbAccum cfg e f s st).opts =
      if (s + 1) % cfg.gradAccum = 0 then st.opts ++ [⟨e, f, s, st.gs + 1⟩]
      else st.opts := by
  unfold pbAccum; split
  · split <;> rfl
  · rfl

lemma pbAccum_saves (cfg : TrainCfg) (e f s : ℕ) (st : TrainSt)
    (h : ¬(cfg.localRank = -1 ∨ cfg.localRank = 0)) :
    (pbAccum cfg e f s st).saves = st.saves := by
  unfold pbAccum; split
  · rw [if_neg]; rintro ⟨hc, -⟩; exact h hc
  · rfl

lemma processBatch_batches (cfg : TrainCfg) (e f s : ℕ) (st : TrainSt) :
    (processBatch cfg e f s st).1.batches = st.batches ++ [pbEvent cfg e f s st] := by
  simp [processBatch, pbAccum_batches]

lemma processBatch_beta_t (cfg : TrainCfg) (e f s : ℕ) (st : TrainSt) :
    (processBatch cfg e f s st).1.beta_t = (pbEvent cfg e f s st).beta := by
  simp [processBatch, pbAccum_beta_t]

lemma processBatch_gs (cfg : TrainCfg) (e f s : ℕ) (st : TrainSt) :
    (processBatch cfg e f s st).1.gs =
      if (s + 1) % cfg.gradAccum = 0 then st.gs + 1 else st.gs := by
  simp [processBatch, pbAccum_gs]

lemma processBatch_gs_mono (cfg : TrainCfg) (e f s : ℕ) (st : TrainSt) :
    st.gs ≤ (processBatch cfg e f s st).1.gs := by
  rw [processBatch_gs]; split <;> omega

lemma processBatch_opts (cfg : TrainCfg) (e f s : ℕ) (st : TrainSt) :
    (processBatch cfg e f s st).1.opts =
      if (s + 1) % cfg.gradAccum = 0 then st.opts ++ [⟨e, f, s, st.gs + 1⟩]
      else st.opts := by
  simp [processBatch, pbAccum_opts]

lemma processBatch_saves (cfg : TrainCfg) (e f s : ℕ) (st : TrainSt)
    (h : ¬(cfg.localRank = -1 ∨ cfg.localRank = 0)) :
    (processBatch cfg e f s st).1.saves = st.saves := by
  simp [processBatch, pbAccum_saves _ _ _ _ _ h]

lemma processBatch_brk (cfg : TrainCfg) (e f s : ℕ) (st : TrainSt) :
    (processBatch cfg e f s st).2 =
      decide (0 < cfg.maxSteps ∧ cfg.maxSteps < ((processBatch cfg e f s st).1.gs : ℤ)) := by
  simp [processBatch]

lemma processBatch_brk_false (cfg : TrainCfg) (e f s : ℕ) (st : TrainSt)
    (hms : cfg.maxSteps ≤ 0) : (processBatch cfg e f s st).2 = false := by
  rw [processBatch_brk, decide_eq_false_iff_not]
  rintro ⟨h1, -⟩; omega

lemma pbEvent_fbMode (cfg : TrainCfg) (e f s : ℕ) (st : TrainSt) :
    (pbEvent cfg e f s st).fbMode =
      fbModeOf cfg.useDeterministic (pbEvent cfg e f s st).beta := rfl

lemma pbEvent_beta_off (cfg : TrainCfg) (e f s : ℕ) (st : TrainSt)
    (h : cfg.useBetaSchedule = false) : (pbEvent cfg e f s st).beta = st.beta_t := by
  simp [pbEvent, h]

/-! ### Loop-level trace lemmas -/

lemma runBatches_spec (cfg : TrainCfg) (e f : ℕ) :
    ∀ (n s : ℕ) (st : TrainSt), ∃ tb,
      (runBatches cfg e f n s st).batches = st.batches ++ tb
      ∧ (∀ ev ∈ tb, ev.epoch = e ∧ ev.fileIdx = f
          ∧ ev.fbMode = fbModeOf cfg.useDeterministic ev.beta)
      ∧ (cfg.useBetaSchedule = false →
          (runBatches cfg e f n s st).beta_t = st.beta_t
          ∧ ∀ ev ∈ tb, ev.beta = st.beta_t) := by
  intro n
  induction n with
  | zero =>
    intro s st
    exact ⟨[], by simp [runBatches], by simp, fun _ => ⟨rfl, by simp⟩⟩
  | succ m ih =>
    intro s st
    have hu : runBatches cfg e f (m + 1) s st =
        (if (processBatch cfg e f s st).2 = true then (processBatch cfg e f s st).1
         else runBatches cfg e f m (s + 1) (processBatch cfg e f s st).1) := rfl
    by_cases hbrk : (processBatch cfg e f s st).2 = true
    · refine ⟨[pbEvent cfg e f s st], ?_, ?_, ?_⟩
      · rw [hu, if_pos hbrk, processBatch_batches]
      · intro ev hev
        rw [List.mem_singleton] at hev
        subst hev
        exact ⟨rfl, rfl, pbEvent_fbMode cfg e f s st⟩
      · intro hoff
        rw [hu, if_pos hbrk]
        refine ⟨?_, ?_⟩
        · rw [processBatch_beta_t, pbEvent_beta_off cfg e f s st hoff]
        · intro ev hev
          rw [List.mem_singleton] at hev
          subst hev
          exact pbEvent_beta_off cfg e f s st hoff
    · rw [hu, if_neg hbrk]
      obtain ⟨tb, htb, hprops, hbeta⟩ := ih (s + 1) (processBatch cfg e f s st).1
      refine ⟨[pbEvent cfg e f s st] ++ tb, ?_, ?_, ?_⟩
      · rw [htb, processBatch_batches, List.append_assoc]
      · intro ev hev
        rcases List.mem_append.mp hev with h1 | h2
        · rw [List.mem_singleton] at h1
          subst h1
          exact ⟨rfl, rfl, pbEvent_fbMode cfg e f s st⟩
        · exact hprops ev h2
      · intro hoff
        have hb1 : (processBatch cfg e f s st).1.beta_t = st.beta_t := by
          rw [processBatch_beta_t, pbEvent_beta_off cfg e f s st hoff]
        refine ⟨?_, ?_⟩
        · rw [(hbeta hoff).1, hb1]
        · intro ev hev
          rcases List.mem_append.mp hev with h1 | h2
          · rw [List.mem_singleton] at h1
            subst h1
            exact pbEvent_beta_off cfg e f s st hoff
          · rw [(hbeta hoff).2 ev h2, hb1]

lemma processFile_spec (cfg : TrainCfg) (e f : ℕ) (st : TrainSt) : ∃ tb,
    (processFile cfg e f st).batches = st.batches ++ tb
    ∧ (∀ ev ∈ tb, ev.epoch = e ∧ ev.fileIdx = f
        ∧ ev.fbMode = fbModeOf cfg.useDeterministic ev.beta)
    ∧ (cfg.useBetaSchedule = false →
        (processFile cfg e f st).beta_t = st.beta_t
        ∧ ∀ ev ∈ tb, ev.beta = st.beta_t) :=
  runBatches_spec cfg e f cfg.batchesPerFile 0 st

lemma runFiles_spec (cfg : TrainCfg) (e : ℕ) :
    ∀ (n f0 : ℕ) (st : TrainSt), ∃ tb,
      (runFiles cfg e n f0 st).batches = st.batches ++ tb
      ∧ (∀ ev ∈ tb, ev.epoch = e ∧ f0 ≤ ev.fileIdx ∧ ev.fileIdx < f0 + n
          ∧ ev.fbMode = fbModeOf cfg.useDeterministic ev.beta)
      ∧ (cfg.useBetaSchedule = false →
          (runFiles cfg e n f0 st).beta_t = st.beta_t
          ∧ ∀ ev ∈ tb, ev.beta = st.beta_t) := by
  intro n
  induction n with
  | zero =>
    intro f0 st
    exact ⟨[], by simp [runFiles], by simp, fun _ => ⟨rfl, by simp⟩⟩
  | succ m ih =>
    intro f0 st
    have hu : runFiles cfg e (m + 1) f0 st =
        runFiles cfg e m (f0 + 1) (processFile cfg e f0 st) := rfl
    rw [hu]
    obtain ⟨t1, ht1, hp1, hb1⟩ := processFile_spec cfg e f0 st
    obtain ⟨t2, ht2, hp2, hb2⟩ := ih (f0 + 1) (processFile cfg e f0 st)
    refine ⟨t1 ++ t2, ?_, ?_, ?_⟩
    · rw [ht2, ht1, List.append_assoc]
    · intro ev hev
      rcases List.mem_append.mp hev with h1 | h2
      · obtain ⟨he, hf, hw⟩ := hp1 ev h1
        exact ⟨he, by omega, by omega, hw⟩
      · obtain ⟨he, hf1, hf2, hw⟩ := hp2 ev h2
        exact ⟨he, by omega, by omega, hw⟩
    · intro hoff
      refine ⟨by rw [(hb2 hoff).1, (hb1 hoff).1], ?_⟩
      intro ev hev
      rcases List.mem_append.mp hev with h1 | h2
      · exact (hb1 hoff).2 ev h1
      · rw [(hb2 hoff).2 ev h2, (hb1 hoff).1]

lemma runEpochs_spec (cfg : TrainCfg) :
    ∀ (n e0 : ℕ) (st : TrainSt), ∃ tb,
      (runEpochs cfg n e0 st).batches = st.batches ++ tb
      ∧ (∀ ev ∈ tb, e0 ≤ ev.epoch ∧ ev.epoch < e0 + n
          ∧ ev.fileIdx < cfg.numFiles - 1
          ∧ ev.fbMode = fbModeOf cfg.useDeterministic ev.beta)
      ∧ (cfg.useBetaSchedule = false →
          (runEpochs cfg n e0 st).beta_t = st.beta_t
          ∧ ∀ ev ∈ tb, ev.beta = st.beta_t) := by
  intro n
  induction n with
  | zero =>
    intro e0 st
    exact ⟨[], by simp [runEpochs], by simp, fun _ => ⟨rfl, by simp⟩⟩
  | succ m ih =>
    intro e0 st
    have hu : runEpochs cfg (m + 1) e0 st =
        runEpochs cfg m (e0 + 1) (runFiles cfg e0 (cfg.numFiles - 1) 0 st) := rfl
    rw [hu]
    obtain ⟨t1, ht1, hp1, hb1⟩ := runFiles_spec cfg e0 (cfg.numFiles - 1) 0 st
    obtain ⟨t2, ht2, hp2, hb2⟩ := ih (e0 + 1) (runFiles cfg e0 (cfg.numFiles - 1) 0 st)
    refine ⟨t1 ++ t2, ?_, ?_, ?_⟩
    · rw [ht2, ht1, List.append_assoc]
    · intro ev hev
      rcases List.mem_append.mp hev with h1 | h2
      · obtain ⟨he, -, hf, hw⟩ := hp1 ev h1
        exact ⟨by omega, by omega, by omega, hw⟩
      · obtain ⟨he1, he2, hf, hw⟩ := hp2 ev h2
        exact ⟨by omega, by omega, hf, hw⟩
    · intro hoff
      refine ⟨by rw [(hb2 hoff).1, (hb1 hoff).1], ?_⟩
      intro ev hev
      rcases List.mem_append.mp hev with h1 | h2
      · exact (hb1 hoff).2 ev h1
      · rw [(hb2 hoff).2 ev h2, (hb1 hoff).1]

/-! ### Accumulation-boundary (optimizer-step) event lemmas -/

lemma runBatches_opts_spec (cfg : TrainCfg) (e f : ℕ) :
    ∀ (n s : ℕ) (st : TrainSt), ∃ t,
      (runBatches cfg e f n s st).opts = st.opts ++ t
      ∧ ∀ o ∈ t, (o.stepInFile + 1) % cfg.gradAccum = 0 := by
  intro n
  induction n with
  | zero => intro s st; exact ⟨[], by simp [runBatches], by simp⟩
  | succ m ih =>
    intro s st
    have hu : runBatches cfg e f (m + 1) s st =
        (if (processBatch cfg e f s st).2 = true then (processBatch cfg e f s st).1
         else runBatches cfg e f m (s + 1) (processBatch cfg e f s st).1) := rfl
    have hpb : ∃ t0, (processBatch cfg e f s st).1.opts = st.opts ++ t0
        ∧ ∀ o ∈ t0, (o.stepInFile + 1) % cfg.gradAccum = 0 := by
      rw [processBatch_opts]
      by_cases hb : (s + 1) % cfg.gradAccum = 0
      · refine ⟨[⟨e, f, s, st.gs + 1⟩], by rw [if_pos hb], ?_⟩
        intro o ho
        rw [List.mem_singleton] at ho
        subst ho
        exact hb
      · exact ⟨[], by rw [if_neg hb, List.append_nil], by simp⟩
    obtain ⟨t0, ht0, hp0⟩ := hpb
    by_cases hbrk : (processBatch cfg e f s st).2 = true
    · rw [hu, if_pos hbrk]
      exact ⟨t0, ht0, hp0⟩
    · rw [hu, if_neg hbrk]
      obtain ⟨t1, ht1, hp1⟩ := ih (s + 1) (processBatch cfg e f s st).1
      refine ⟨t0 ++ t1, by rw [ht1, ht0, List.append_assoc], ?_⟩
      intro o ho
      rcases List.mem_append.mp ho with h1 | h2
      · exact hp0 o h1
      · exact hp1 o h2

lemma runFiles_opts_spec (cfg : TrainCfg) (e : ℕ) :
    ∀ (n f0 : ℕ) (st : TrainSt), ∃ t,
      (runFiles cfg e n f0 st).opts = st.opts ++ t
      ∧ ∀ o ∈ t, (o.stepInFile + 1) % cfg.gradAccum = 0 := by
  intro n
  induction n with
  | zero => intro f0 st; exact ⟨[], by simp [runFiles], by simp⟩
  | succ m ih =>
    intro f0 st
    have hu : runFiles cfg e (m + 1) f0 st =
        runFiles cfg e m (f0 + 1) (processFile cfg e f0 st) := rfl
    rw [hu]
    obtain ⟨t0, ht0, hp0⟩ := runBatches_opts_spec cfg e f0 cfg.batchesPerFile 0 st
    obtain ⟨t1, ht1, hp1⟩ := ih (f0 + 1) (processFile cfg e f0 st)
    refine ⟨t0 ++ t1, ?_, ?_⟩
    · rw [ht1]
      show (processFile cfg e f0 st).opts ++ t1 = st.opts ++ (t0 ++ t1)
      rw [processFile, ht0, List.append_assoc]
    · intro o ho
      rcases List.mem_append.mp ho with h1 | h2
      · exact hp0 o h1
      · exact hp1 o h2

lemma runEpochs_opts_spec (cfg : TrainCfg) :
    ∀ (n e0 : ℕ) (st : TrainSt), ∃ t,
      (runEpochs cfg n e0 st).opts = st.opts ++ t
      ∧ ∀ o ∈ t, (o.stepInFile + 1) % cfg.gradAccum = 0 := by
  intro n
  induction n with
  | zero => intro e0 st; exact ⟨[], by simp [runEpochs], by simp⟩
  | succ m ih =>
    intro e0 st
    have hu : runEpochs cfg (m + 1) e0 st =
        runEpochs cfg m (e0 + 1) (runFiles cfg e0 (cfg.numFiles - 1) 0 st) := rfl
    rw [hu]
    obtain ⟨t0, ht0, hp0⟩ := runFiles_opts_spec cfg e0 (cfg.numFiles - 1) 0 st
    obtain ⟨t1, ht1, hp1⟩ := ih (e0 + 1) (runFiles cfg e0 (cfg.numFiles - 1) 0 st)
    refine ⟨t0 ++ t1, by rw [ht1, ht0, List.append_assoc], ?_⟩
    intro o ho
    rcases List.mem_append.mp ho with h1 | h2
    · exact hp0 o h1
    · exact hp1 o h2

/-! ### Save-call lemmas (coordinator gating) -/

lemma runBatches_saves_const (cfg : TrainCfg) (e f : ℕ)
    (h : ¬(cfg.localRank = -1 ∨ cfg.localRank = 0)) :
    ∀ (n s : ℕ) (st : TrainSt), (runBatches cfg e f n s st).saves = st.saves := by
  intro n
  induction n with
  | zero => intro s st; rfl
  | succ m ih =>
    intro s st
    have hu : runBatches cfg e f (m + 1) s st =
        (if (processBatch cfg e f s st).2 = true then (processBatch cfg e f s st).1
         else runBatches cfg e f m (s + 1) (processBatch cfg e f s st).1) := rfl
    by_cases hbrk : (processBatch cfg e f s st).2 = true
    · rw [hu, if_pos hbrk, processBatch_saves cfg e f s st h]
    · rw [hu, if_neg hbrk, ih, processBatch_saves cfg e f s st h]

lemma runFiles_saves_const (cfg : TrainCfg) (e : ℕ)
    (h : ¬(cfg.localRank = -1 ∨ cfg.localRank = 0)) :
    ∀ (n f0 : ℕ) (st : TrainSt), (runFiles cfg e n f0 st).saves = st.saves := by
  intro n
  induction n with
  | zero => intro f0 st; rfl
  | succ m ih =>
    intro f0 st
    have hu : runFiles cfg e (m + 1) f0 st =
        runFiles cfg e m (f0 + 1) (processFile cfg e f0 st) := rfl
    rw [hu, ih, processFile, runBatches_saves_const cfg e f0 h]

lemma runEpochs_saves_const (cfg : TrainCfg)
    (h : ¬(cfg.localRank = -1 ∨ cfg.localRank = 0)) :
    ∀ (n e0 : ℕ) (st : TrainSt), (runEpochs cfg n e0 st).saves = st.saves := by
  intro n
  induction n with
  | zero => intro e0 st; rfl
  | succ m ih =>
    intro e0 st
    have hu : runEpochs cfg (m + 1) e0 st =
        runEpochs cfg m (e0 + 1) (runFiles cfg e0 (cfg.numFiles - 1) 0 st) := rfl
    rw [hu, ih, runFiles_saves_const cfg e0 h]

/-! ### One optimizer step per boundary batch: the count invariant -/

/-- The boundary predicate on recorded batches. -/
def bndP (cfg : TrainCfg) : BatchEv → Bool :=
  fun b => decide ((b.stepInFile + 1) % cfg.gradAccum = 0)

lemma processBatch_inv (cfg : TrainCfg) (e f s : ℕ) (st : TrainSt)
    (h : st.opts.length = st.batches.countP (bndP cfg)) :
    (processBatch cfg e f s st).1.opts.length =
      (processBatch cfg e f s st).1.batches.countP (bndP cfg) := by
  rw [processBatch_opts, processBatch_batches, List.countP_append]
  have hev : (bndP cfg) (pbEvent cfg e f s st) = decide ((s + 1) % cfg.gradAccum = 0) := rfl
  by_cases hb : (s + 1) % cfg.gradAccum = 0
  · rw [if_pos hb, List.length_append, h]
    simp [List.countP_cons, hev, hb]
  · rw [if_neg hb, h]
    simp [List.countP_cons, hev, hb]

lemma runBatches_inv (cfg : TrainCfg) (e f : ℕ) :
    ∀ (n s : ℕ) (st : TrainSt),
      st.opts.length = st.batches.countP (bndP cfg) →
      (runBatches cfg e f n s st).opts.length =
        (runBatches cfg e f n s st).batches.countP (bndP cfg) := by
  intro n
  induction n with
  | zero => intro s st h; exact h
  | succ m ih =>
    intro s st h
    have hu : runBatches cfg e f (m + 1) s st =
        (if (processBatch cfg e f s st).2 = true then (processBatch cfg e f s st).1
         else runBatches cfg e f m (s + 1) (processBatch cfg e f s st).1) := rfl
    by_cases hbrk : (processBatch cfg e f s st).2 = true
    · rw [hu, if_pos hbrk]
      exact processBatch_inv cfg e f s st h
    · rw [hu, if_neg hbrk]
      exact ih (s + 1) _ (processBatch_inv cfg e f s st h)

lemma runFiles_inv (cfg : TrainCfg) (e : ℕ) :
    ∀ (n f0 : ℕ) (st : TrainSt),
      st.opts.length = st.batches.countP (bndP cfg) →
      (runFiles cfg e n f0 st).opts.length =
        (runFiles cfg e n f0 st).batches.countP (bndP cfg) := by
  intro n
  induction n with
  | zero => intro f0 st h; exact h
  | succ m ih =>
    intro f0 st h
    have hu : runFiles cfg e (m + 1) f0 st =
        runFiles cfg e m (f0 + 1) (processFile cfg e f0 st) := rfl
    rw [hu]
    exact ih (f0 + 1) _ (runBatches_inv cfg e f0 cfg.batchesPerFile 0 st h)

lemma runEpochs_inv (cfg : TrainCfg) :
    ∀ (n e0 : ℕ) (st : TrainSt),
      st.opts.length = st.batches.countP (bndP cfg) →
      (runEpochs cfg n e0 st).opts.length =
        (runEpochs cfg n e0 st).batches.countP (bndP cfg) := by
  intro n
  induction n with
  | zero => intro e0 st h; exact h
  | succ m ih =>
    intro e0 st h
    have hu : runEpochs cfg (m + 1) e0 st =
        runEpochs cfg m (e0 + 1) (runFiles cfg e0 (cfg.numFiles - 1) 0 st) := rfl
    rw [hu]
    exact ih (e0 + 1) _ (runFiles_inv cfg e0 (cfg.numFiles - 1) 0 st h)

/-! ### Exact step counting when the `max_steps` break can never fire -/

/-- The number of accumulation boundaries among step indices
`s, s+1, …, s+n-1`, i.e. the number of `k` in that window with
`(k + 1) % G = 0`. -/
def cntBnd (G : ℕ) : ℕ → ℕ → ℕ
  | _, 0 => 0
  | s, n + 1 => (if (s + 1) % G = 0 then 1 else 0) + cntBnd G (s + 1) n

lemma cntBnd_succ_right (G : ℕ) :
    ∀ (n s : ℕ), cntBnd G s (n + 1) = cntBnd G s n + (if (s + n + 1) % G = 0 then 1 else 0) := by
  intro n
  induction n with
  | zero => intro s; simp [cntBnd]
  | succ m ih =>
    intro s
    show (if (s + 1) % G = 0 then 1 else 0) + cntBnd G (s + 1) (m + 1) = _
    rw [ih (s + 1)]
    have harith : s + 1 + m + 1 = s + (m + 1) + 1 := by omega
    rw [harith]
    show _ = (if (s + 1) % G = 0 then 1 else 0) + cntBnd G (s + 1) m
      + (if (s + (m + 1) + 1) % G = 0 then 1 else 0)
    omega

lemma cntBnd_eq_div (G : ℕ) : ∀ B, cntBnd G 0 B = B / G := by
  intro B
  induction B with
  | zero => simp [cntBnd]
  | succ m ih =>
    rw [cntBnd_succ_right, ih, Nat.succ_div]
    have hiff : G ∣ m + 1 ↔ (0 + m + 1) % G = 0 := by
      rw [Nat.zero_add]
      exact Nat.dvd_iff_mod_eq_zero
    by_cases hd : G ∣ m + 1
    · rw [if_pos hd, if_pos (hiff.mp hd)]
    · rw [if_neg hd, if_neg (fun hc => hd (hiff.mpr hc))]

lemma runBatches_nobreak (cfg : TrainCfg) (e f : ℕ) (hms : cfg.maxSteps ≤ 0) :
    ∀ (n s : ℕ) (st : TrainSt),
      (runBatches cfg e f n s st).gs = st.gs + cntBnd cfg.gradAccum s n
      ∧ (runBatches cfg e f n s st).batches.length = st.batches.length + n := by
  intro n
  induction n with
  | zero => intro s st; exact ⟨by simp [runBatches, cntBnd], by simp [runBatches]⟩
  | succ m ih =>
    intro s st
    have hu : runBatches cfg e f (m + 1) s st =
        (if (processBatch cfg e f s st).2 = true then (processBatch cfg e f s st).1
         else runBatches cfg e f m (s + 1) (processBatch cfg e f s st).1) := rfl
    rw [hu, if_neg (by rw [processBatch_brk_false cfg e f s st hms]; exact Bool.false_ne_true)]
    obtain ⟨ihg, ihl⟩ := ih (s + 1) (processBatch cfg e f s st).1
    constructor
    · rw [ihg, processBatch_gs]
      show _ = st.gs + ((if (s + 1) % cfg.gradAccum = 0 then 1 else 0) + cntBnd cfg.gradAccum (s + 1) m)
      split <;> omega
    · rw [ihl, processBatch_batches, List.length_append]
      simp; omega

lemma processFile_nobreak (cfg : TrainCfg) (e f : ℕ) (st : TrainSt)
    (hms : cfg.maxSteps ≤ 0) :
    (processFile cfg e f st).gs = st.gs + cfg.batchesPerFile / cfg.gradAccum
    ∧ (processFile cfg e f st).batches.length = st.batches.length + cfg.batchesPerFile := by
  obtain ⟨hg, hl⟩ := runBatches_nobreak cfg e f hms cfg.batchesPerFile 0 st
  exact ⟨by rw [processFile, hg, cntBnd_eq_div cfg.gradAccum], hl⟩

lemma runFiles_nobreak (cfg : TrainCfg) (e : ℕ)
    (hms : cfg.maxSteps ≤ 0) :
    ∀ (n f0 : ℕ) (st : TrainSt),
      (runFiles cfg e n f0 st).gs = st.gs + n * (cfg.batchesPerFile / cfg.gradAccum)
      ∧ (runFiles cfg e n f0 st).batches.length
        = st.batches.length + n * cfg.batchesPerFile := by
  intro n
  induction n with
  | zero => intro f0 st; exact ⟨by simp [runFiles], by simp [runFiles]⟩
  | succ m ih =>
    intro f0 st
    have hu : runFiles cfg e (m + 1) f0 st =
        runFiles cfg e m (f0 + 1) (processFile cfg e f0 st) := rfl
    obtain ⟨ihg, ihl⟩ := ih (f0 + 1) (processFile cfg e f0 st)
    obtain ⟨hg, hl⟩ := processFile_nobreak cfg e f0 st hms
    constructor
    · rw [hu, ihg, hg]; ring
    · rw [hu, ihl, hl]; ring

lemma runEpochs_nobreak (cfg : TrainCfg)
    (hms : cfg.maxSteps ≤ 0) :
    ∀ (n e0 : ℕ) (st : TrainSt),
      (runEpochs cfg n e0 st).gs
        = st.gs + n * ((cfg.numFiles - 1) * (cfg.batchesPerFile / cfg.gradAccum))
      ∧ (runEpochs cfg n e0 st).batches.length
        = st.batches.length + n * ((cfg.numFiles - 1) * cfg.batchesPerFile) := by
  intro n
  induction n with
  | zero => intro e0 st; exact ⟨by simp [runEpochs], by simp [runEpochs]⟩
  | succ m ih =>
    intro e0 st
    have hu : runEpochs cfg (m + 1) e0 st =
        runEpochs cfg m (e0 + 1) (runFiles cfg e0 (cfg.numFiles - 1) 0 st) := rfl
    obtain ⟨ihg, ihl⟩ := ih (e0 + 1) (runFiles cfg e0 (cfg.numFiles - 1) 0 st)
    obtain ⟨hg, hl⟩ := runFiles_nobreak cfg e0 hms (cfg.numFiles - 1) 0 st
    constructor
    · rw [hu, ihg, hg]; ring
    · rw [hu, ihl, hl]; ring

/-! ### Membership: every file of every epoch is entered -/

lemma runBatches_mem_mono (cfg : TrainCfg) (e f n s : ℕ) (st : TrainSt)
    {ev : BatchEv} (h : ev ∈ st.batches) :
    ev ∈ (runBatches cfg e f n s st).batches := by
  obtain ⟨tb, htb, -, -⟩ := runBatches_spec cfg e f n s st
  rw [htb]
  exact List.mem_append_left tb h

lemma runFiles_mem_mono (cfg : TrainCfg) (e n f0 : ℕ) (st : TrainSt)
    {ev : BatchEv} (h : ev ∈ st.batches) :
    ev ∈ (runFiles cfg e n f0 st).batches := by
  obtain ⟨tb, htb, -, -⟩ := runFiles_spec cfg e n f0 st
  rw [htb]
  exact List.mem_append_left tb h

lemma runEpochs_mem_mono (cfg : TrainCfg) (n e0 : ℕ) (st : TrainSt)
    {ev : BatchEv} (h : ev ∈ st.batches) :
    ev ∈ (runEpochs cfg n e0 st).batches := by
  obtain ⟨tb, htb, -, -⟩ := runEpochs_spec cfg n e0 st
  rw [htb]
  exact List.mem_append_left tb h

lemma processFile_first_mem (cfg : TrainCfg) (e f : ℕ) (st : TrainSt)
    (hB : 0 < cfg.batchesPerFile) :
    ∃ ev ∈ (processFile cfg e f st).batches, ev.epoch = e ∧ ev.fileIdx = f := by
  obtain ⟨m, hm⟩ := Nat.exists_eq_succ_of_ne_zero (Nat.pos_iff_ne_zero.mp hB)
  rw [processFile, hm]
  have hu : runBatches cfg e f (m + 1) 0 st =
      (if (processBatch cfg e f 0 st).2 = true then (processBatch cfg e f 0 st).1
       else runBatches cfg e f m 1 (processBatch cfg e f 0 st).1) := rfl
  rw [hu]
  have hmem : pbEvent cfg e f 0 st ∈ (processBatch cfg e f 0 st).1.batches := by
    rw [processBatch_batches]
    exact List.mem_append_right _ (List.mem_singleton_self _)
  by_cases hbrk : (processBatch cfg e f 0 st).2 = true
  · rw [if_pos hbrk]
    exact ⟨pbEvent cfg e f 0 st, hmem, rfl, rfl⟩
  · rw [if_neg hbrk]
    exact ⟨pbEvent cfg e f 0 st,
      runBatches_mem_mono cfg e f m 1 (processBatch cfg e f 0 st).1 hmem, rfl, rfl⟩

lemma runFiles_mem (cfg : TrainCfg) (e : ℕ) (hB : 0 < cfg.batchesPerFile) :
    ∀ (n f0 : ℕ) (st : TrainSt) (f : ℕ), f0 ≤ f → f < f0 + n →
      ∃ ev ∈ (runFiles cfg e n f0 st).batches, ev.epoch = e ∧ ev.fileIdx = f := by
  intro n
  induction n with
  | zero => intro f0 st f h1 h2; omega
  | succ m ih =>
    intro f0 st f h1 h2
    have hu : runFiles cfg e (m + 1) f0 st =
        runFiles cfg e m (f0 + 1) (processFile cfg e f0 st) := rfl
    rw [hu]
    by_cases hf : f = f0
    · subst hf
      obtain ⟨ev, hev, hp⟩ := processFile_first_mem cfg e f st hB
      exact ⟨ev, runFiles_mem_mono cfg e m (f + 1) _ hev, hp⟩
    · exact ih (f0 + 1) (processFile cfg e f0 st) f (by omega) (by omega)

lemma runEpochs_mem (cfg : TrainCfg) (hB : 0 < cfg.batchesPerFile) :
    ∀ (n e0 : ℕ) (st : TrainSt) (e f : ℕ), e0 ≤ e → e < e0 + n →
      f < cfg.numFiles - 1 →
      ∃ ev ∈ (runEpochs cfg n e0 st).batches, ev.epoch = e ∧ ev.fileIdx = f := by
  intro n
  induction n with
  | zero => intro e0 st e f h1 h2 h3; omega
  | succ m ih =>
    intro e0 st e f h1 h2 h3
    have hu : runEpochs cfg (m + 1) e0 st =
        runEpochs cfg m (e0 + 1) (runFiles cfg e0 (cfg.numFiles - 1) 0 st) := rfl
    rw [hu]
    by_cases he : e = e0
    · subst he
      obtain ⟨ev, hev, hp⟩ := runFiles_mem cfg e hB (cfg.numFiles - 1) 0 st f
        (by omega) (by omega)
      exact ⟨ev, runEpochs_mem_mono cfg m (e + 1) _ hev, hp⟩
    · exact ih (e0 + 1) (runFiles cfg e0 (cfg.numFiles - 1) 0 st) e f (by omega) (by omega) h3

/-! ### `global_step` stays 0 when no accumulation boundary is ever reached -/

lemma runBatches_gs_const (cfg : TrainCfg) (e f : ℕ)
    (hBG : cfg.batchesPerFile < cfg.gradAccum) :
    ∀ (n s : ℕ) (st : TrainSt), s + n ≤ cfg.batchesPerFile →
      (runBatches cfg e f n s st).gs = st.gs := by
  intro n
  induction n with
  | zero => intro s st _; rfl
  | succ m ih =>
    intro s st hle
    have hu : runBatches cfg e f (m + 1) s st =
        (if (processBatch cfg e f s st).2 = true then (processBatch cfg e f s st).1
         else runBatches cfg e f m (s + 1) (processBatch cfg e f s st).1) := rfl
    have hnb : (s + 1) % cfg.gradAccum ≠ 0 := by
      have hlt : s + 1 < cfg.gradAccum := by omega
      rw [Nat.mod_eq_of_lt hlt]
      omega
    have hgs : (processBatch cfg e f s st).1.gs = st.gs := by
      rw [processBatch_gs, if_neg hnb]
    by_cases hbrk : (processBatch cfg e f s st).2 = true
    · rw [hu, if_pos hbrk, hgs]
    · rw [hu, if_neg hbrk, ih (s + 1) _ (by omega), hgs]

lemma runFiles_gs_const (cfg : TrainCfg) (e : ℕ)
    (hBG : cfg.batchesPerFile < cfg.gradAccum) :
    ∀ (n f0 : ℕ) (st : TrainSt), (runFiles cfg e n f0 st).gs = st.gs := by
  intro n
  induction n with
  | zero => intro f0 st; rfl
  | succ m ih =>
    intro f0 st
    have hu : runFiles cfg e (m + 1) f0 st =
        runFiles cfg e m (f0 + 1) (processFile cfg e f0 st) := rfl
    rw [hu, ih, processFile, runBatches_gs_const cfg e f0 hBG _ 0 st (by omega)]

lemma runEpochs_gs_const (cfg : TrainCfg)
    (hBG : cfg.batchesPerFile < cfg.gradAccum) :
    ∀ (n e0 : ℕ) (st : TrainSt), (runEpochs cfg n e0 st).gs = st.gs := by
  intro n
  induction n with
  | zero => intro e0 st; rfl
  | succ m ih =>
    intro e0 st
    have hu : runEpochs cfg (m + 1) e0 st =
        runEpochs cfg m (e0 + 1) (runFiles cfg e0 (cfg.numFiles - 1) 0 st) := rfl
    rw [hu, ih, runFiles_gs_const cfg e0 hBG]

lemma runEpochs_skip_files (cfg : TrainCfg) (hF : cfg.numFiles ≤ 1) :
    ∀ (n e0 : ℕ) (st : TrainSt), runEpochs cfg n e0 st = st := by
  intro n
  induction n with
  | zero => intro e0 st; rfl
  | succ m ih =>
    intro e0 st
    have hu : runEpochs cfg (m + 1) e0 st =
        runEpochs cfg m (e0 + 1) (runFiles cfg e0 (cfg.numFiles - 1) 0 st) := rfl
    have hz : cfg.numFiles - 1 = 0 := by omega
    rw [hu, hz]
    exact ih (e0 + 1) st

/-! ### The schedule list is dead when `use_beta_schedule` is off -/

lemma processBatch_betaList_congr (cfg : TrainCfg) (l : List ℚ) (e f s : ℕ)
    (st : TrainSt) (hoff : cfg.useBetaSchedule = false) :
    processBatch { cfg with betaList := l } e f s st = processBatch cfg e f s st := by
  simp [processBatch, pbEvent, pbAccum, hoff]

lemma runBatches_betaList_congr (cfg : TrainCfg) (l : List ℚ) (e f : ℕ)
    (hoff : cfg.useBetaSchedule = false) :
    ∀ (n s : ℕ) (st : TrainSt),
      runBatches { cfg with betaList := l } e f n s st = runBatches cfg e f n s st := by
  intro n
  induction n with
  | zero => intro s st; rfl
  | succ m ih =>
    intro s st
    show (if (processBatch { cfg with betaList := l } e f s st).2 = true
        then (processBatch { cfg with betaList := l } e f s st).1
        else runBatches { cfg with betaList := l } e f m (s + 1)
          (processBatch { cfg with betaList := l } e f s st).1) = _
    rw [processBatch_betaList_congr cfg l e f s st hoff, ih]
    rfl

lemma runFiles_betaList_congr (cfg : TrainCfg) (l : List ℚ) (e : ℕ)
    (hoff : cfg.useBetaSchedule = false) :
    ∀ (n f0 : ℕ) (st : TrainSt),
      runFiles { cfg with betaList := l } e n f0 st = runFiles cfg e n f0 st := by
  intro n
  induction n with
  | zero => intro f0 st; rfl
  | succ m ih =>
    intro f0 st
    show runFiles { cfg with betaList := l } e m (f0 + 1)
        (processFile { cfg with betaList := l } e f0 st) = _
    rw [ih]
    have hpf : processFile { cfg with betaList := l } e f0 st = processFile cfg e f0 st := by
      rw [processFile, processFile]
      exact runBatches_betaList_congr cfg l e f0 hoff cfg.batchesPerFile 0 st
    rw [hpf]
    rfl

lemma runEpochs_betaList_congr (cfg : TrainCfg) (l : List ℚ)
    (hoff : cfg.useBetaSchedule = false) :
    ∀ (n e0 : ℕ) (st : TrainSt),
      runEpochs { cfg with betaList := l } n e0 st = runEpochs cfg n e0 st := by
  intro n
  induction n with
  | zero => intro e0 st; rfl
  | succ m ih =>
    intro e0 st
    show runEpochs { cfg with betaList := l } m (e0 + 1)
        (runFiles { cfg with betaList := l } e0 ((⟨cfg.numTrainEpochs, cfg.numFiles,
          cfg.batchesPerFile, cfg.dataloaderLen, cfg.gradAccum, cfg.maxSteps,
          cfg.useBetaSchedule, cfg.useDeterministic, l, cfg.localRank, cfg.saveSteps,
          cfg.usePhilly, cfg.lossOf⟩ : TrainCfg).numFiles - 1) 0 st) = _
    rw [ih]
    have hrf : runFiles { cfg with betaList := l } e0 (cfg.numFiles - 1) 0 st
        = runFiles cfg e0 (cfg.numFiles - 1) 0 st :=
      runFiles_betaList_congr cfg l e0 hoff (cfg.numFiles - 1) 0 st
    rw [show ((⟨cfg.numTrainEpochs, cfg.numFiles, cfg.batchesPerFile, cfg.dataloaderLen,
      cfg.gradAccum, cfg.maxSteps, cfg.useBetaSchedule, cfg.useDeterministic, l,
      cfg.localRank, cfg.saveSteps, cfg.usePhilly, cfg.lossOf⟩ : TrainCfg).numFiles - 1)
      = cfg.numFiles - 1 from rfl, hrf]
    rfl

lemma trainRun_betaList_congr (cfg : TrainCfg) (l : List ℚ)
    (hoff : cfg.useBetaSchedule = false) :
    trainRun { cfg with betaList := l } = trainRun cfg := by
  rw [trainRun, trainRun]
  have heff : effEpochs { cfg with betaList := l } = effEpochs cfg := rfl
  rw [heff]
  exact runEpochs_betaList_congr cfg l hoff (effEpochs cfg) 0 initSt

lemma effEpochs_nonpos (cfg : TrainCfg) (hms : cfg.maxSteps ≤ 0) :
    effEpochs cfg = cfg.numTrainEpochs := by
  rw [effEpochs, if_neg]
  omega

/-! ### Concrete configurations used by witnesses and counterexamples -/

/-- The rational 1/2, written in normal form so the kernel can compare it. -/
def halfQ : ℚ := ⟨1, 2, by decide, by decide⟩

/-- A run that exceeds `max_steps = 1` during file 0 of epoch 0: one epoch
(line 393 derives `1 // (2 // 1) + 1 = 1`), three corpus files, two batches
per file, accumulation 1. -/
def cfgC1 : TrainCfg :=
  { numTrainEpochs := 1, numFiles := 3, batchesPerFile := 2, dataloaderLen := 2,
    gradAccum := 1, maxSteps := 1, useBetaSchedule := false,
    useDeterministic := false, betaList := [], localRank := 0, saveSteps := 0,
    usePhilly := false, lossOf := fun _ _ _ => 1 }

/-- A state whose `global_step` already exceeds `cfgC1.maxSteps`. -/
def stC1 : TrainSt := ⟨2, 0, 0, [], [], []⟩

/-- The end-to-end scenario of the spec: 2 epochs, 3 files per epoch,
accumulation 2, two batches per file, `max_steps = -1`. -/
def cfgC5 : TrainCfg :=
  { numTrainEpochs := 2, numFiles := 3, batchesPerFile := 2, dataloaderLen := 6,
    gradAccum := 2, maxSteps := -1, useBetaSchedule := false,
    useDeterministic := false, betaList := [], localRank := -1, saveSteps := 0,
    usePhilly := false, lossOf := fun _ _ _ => 1 }

/-- One epoch, two processed files of 3 batches each with accumulation 2:
each file's third batch is consumed without reaching an accumulation
boundary, because the `step` counter of `enumerate(train_dataloader)` resets
at every file. -/
def cfgC5b : TrainCfg :=
  { numTrainEpochs := 1, numFiles := 3, batchesPerFile := 3, dataloaderLen := 6,
    gradAccum := 2, maxSteps := -1, useBetaSchedule := false,
    useDeterministic := false, betaList := [], localRank := -1, saveSteps := 0,
    usePhilly := false, lossOf := fun _ _ _ => 1 }

/-- A minimal one-epoch, one-processed-file, one-batch run. -/
def cfgC6 : TrainCfg :=
  { numTrainEpochs := 1, numFiles := 2, batchesPerFile := 1, dataloaderLen := 1,
    gradAccum := 1, maxSteps := -1, useBetaSchedule := false,
    useDeterministic := false, betaList := [], localRank := 0, saveSteps := 0,
    usePhilly := false, lossOf := fun _ _ _ => 1 }

/-- A throwaway training configuration for the topology-failure runs (never
reached, since `gpu_indices` aborts first). -/
def cfgC7 : TrainCfg :=
  { numTrainEpochs := 1, numFiles := 2, batchesPerFile := 1, dataloaderLen := 1,
    gradAccum := 1, maxSteps := -1, useBetaSchedule := false,
    useDeterministic := false, betaList := [], localRank := 0, saveSteps := 0,
    usePhilly := false, lossOf := fun _ _ _ => 1 }

/-- A non-coordinator rank (rank 1) with saving enabled on every step. -/
def cfgC8 : TrainCfg :=
  { numTrainEpochs := 1, numFiles := 2, batchesPerFile := 1, dataloaderLen := 1,
    gradAccum := 1, maxSteps := -1, useBetaSchedule := false,
    useDeterministic := false, betaList := [], localRank := 1, saveSteps := 1,
    usePhilly := false, lossOf := fun _ _ _ => 1 }

/-- `use_beta_schedule` off with a nonzero configured target beta available
in the (dead) schedule. -/
def cfgC9 : TrainCfg :=
  { numTrainEpochs := 1, numFiles := 2, batchesPerFile := 1, dataloaderLen := 1,
    gradAccum := 1, maxSteps := -1, useBetaSchedule := false,
    useDeterministic := false, betaList := [1], localRank := 0, saveSteps := 0,
    usePhilly := false, lossOf := fun _ _ _ => 1 }

/-- A corpus directory with a single matching file: the file loop body never
runs. -/
def cfgC10 : TrainCfg :=
  { numTrainEpochs := 1, numFiles := 1, batchesPerFile := 1, dataloaderLen := 1,
    gradAccum := 1, maxSteps := -1, useBetaSchedule := false,
    useDeterministic := false, betaList := [], localRank := 0, saveSteps := 0,
    usePhilly := false, lossOf := fun _ _ _ => 1 }

/-! ### Claim C2: weight-gate saturation -/

/-- Counterexample to C2 as stated: for the schedule `[0, 1/2]` whose
configured stop value (target beta) is `1/2`, the weight used at step `2 ≥ L`
is the constant `1.0` of line 536, not the stop value `1/2`. -/
theorem c2_counterexample :
    betaAtStep [0, halfQ] 2 = 1 ∧ halfQ ≠ 1 := by
  constructor
  · rfl
  · decide

/-- C2 (amended): for every precomputed schedule of length `L` and every
step, the weight used is `sequence[step]` exactly when `step < L`, and the
constant `1.0` when `step ≥ L` (saturating, never erroring); the saturation
value equals the configured stop value only when that stop value is `1.0`. -/
theorem c2_amended (l : List ℚ) (s : ℕ) :
    (s < l.length → betaAtStep l s = l.getD s 0)
    ∧ (l.length ≤ s → betaAtStep l s = 1) := by
  constructor
  · intro h
    rw [betaAtStep, if_neg (by omega)]
  · intro h
    rw [betaAtStep, if_pos h]

/-- Witness for `c2_amended` at the concrete schedule `[0, 1/2]`. -/
theorem c2_amended_witness :
    betaAtStep [0, halfQ] 1 = [0, halfQ].getD 1 0 ∧ betaAtStep [0, halfQ] 5 = 1 :=
  ⟨(c2_amended [0, halfQ] 1).1 (by decide), (c2_amended [0, halfQ] 5).2 (by decide)⟩

/-! ### Claim C3: divisible device partition -/

lemma gpu_indices_ok (c : ℕ) (ls lr : ℤ) (d : Bool)
    (h1 : 0 ≤ lr) (h2 : lr < ls) (h3 : ls ≤ (c : ℤ)) :
    gpu_indices c ls lr d =
      .ok (if d then gpu_indices_div c ls.toNat lr.toNat
           else array_split_block c ls.toNat lr.toNat) := by
  rw [gpu_indices, if_neg (not_not_intro ⟨h1, h2⟩),
    if_neg (not_not_intro ⟨h3, lt_of_le_of_lt h1 h2⟩)]

lemma gpu_indices_div_830 : gpu_indices_div 8 3 0 = [0, 1, 2] := by
  unfold gpu_indices_div arange1
  push_cast
  have hc : (-⌊(0:ℚ) * (8 / 3) - ((0:ℚ) + 1) * (8 / 3)⌋).toNat = 3 := by
    norm_num
    rfl
  rw [hc, show List.range 3 = [0, 1, 2] from by decide]
  simp only [List.map_cons, List.map_nil, Function.comp_apply, List.map_map]
  norm_num

lemma gpu_indices_div_831 : gpu_indices_div 8 3 1 = [2, 3, 4] := by
  unfold gpu_indices_div arange1
  push_cast
  have hc : (-⌊(1:ℚ) * (8 / 3) - ((1:ℚ) + 1) * (8 / 3)⌋).toNat = 3 := by
    norm_num
    rfl
  rw [hc, show List.range 3 = [0, 1, 2] from by decide]
  simp only [List.map_cons, List.map_nil, Function.comp_apply, List.map_map]
  norm_num

lemma gpu_indices_div_832 : gpu_indices_div 8 3 2 = [5, 6, 7] := by
  unfold gpu_indices_div arange1
  push_cast
  have hc : (-⌊(2:ℚ) * (8 / 3) - ((2:ℚ) + 1) * (8 / 3)⌋).toNat = 3 := by
    norm_num
    rfl
  rw [hc, show List.range 3 = [0, 1, 2] from by decide]
  simp only [List.map_cons, List.map_nil, Function.comp_apply, List.map_map]
  norm_num

/-- C3, evaluated at the failing input `deviceCount = 8, localSize = 3` with
divisible partitioning: each local rank receives 3 device indices (not
`floor(8/3) = 2`), and device index 2 is assigned to both rank 0 and rank 1
— contradicting both the claim and the source's own warning that remainder
devices "may be unused". -/
theorem c3_overlap_eval :
    gpu_indices 8 3 0 true = .ok [0, 1, 2]
    ∧ gpu_indices 8 3 1 true = .ok [2, 3, 4]
    ∧ gpu_indices 8 3 2 true = .ok [5, 6, 7] := by
  refine ⟨?_, ?_, ?_⟩
  · rw [gpu_indices_ok 8 3 0 true (by decide) (by decide) (by decide)]
    norm_num
    exact gpu_indices_div_830
  · rw [gpu_indices_ok 8 3 1 true (by decide) (by decide) (by decide)]
    norm_num
    exact gpu_indices_div_831
  · rw [gpu_indices_ok 8 3 2 true (by decide) (by decide) (by decide)]
    norm_num
    exact gpu_indices_div_832

/-! ### Claim C4: resilient versus strict checkpoint saving -/

lemma resilient_save_aux (N : ℕ) :
    ∀ (fuel k : ℕ), k ≤ N → N - k < fuel →
      resilient_save (failsExactly N) fuel k = some (N + 1) := by
  intro fuel
  induction fuel with
  | zero => intro k h1 h2; omega
  | succ m ih =>
    intro k h1 h2
    by_cases hk : N ≤ k
    · have hkN : k = N := by omega
      subst hkN
      rw [resilient_save, if_pos (by simp [failsExactly])]
    · rw [resilient_save, if_neg (by simp [failsExactly]; omega)]
      exact ih (k + 1) (by omega) (by omega)

/-- C4: with a save dependency that fails exactly `N` times and then
succeeds, the resilient (`use_philly`) retry loop completes with `N + 1`
attempts made, every intermediate error swallowed; the strict branch makes a
single attempt, and when `N > 0` that first failure propagates as a fatal
error. -/
theorem c4_resilient_strict (N fuel : ℕ) (hfuel : N < fuel) :
    resilient_save (failsExactly N) fuel 0 = some (N + 1)
    ∧ (0 < N → strict_save (failsExactly N) = .error "save failed") := by
  constructor
  · exact resilient_save_aux N fuel 0 (Nat.zero_le N) (by omega)
  · intro hN
    rw [strict_save, if_neg]
    simp [failsExactly]
    omega

/-- Witness for `c4_resilient_strict`: three injected failures. -/
theorem c4_resilient_strict_witness :
    resilient_save (failsExactly 3) 10 0 = some 4
    ∧ strict_save (failsExactly 3) = .error "save failed" :=
  ⟨(c4_resilient_strict 3 10 (by decide)).1,
   (c4_resilient_strict 3 10 (by decide)).2 (by decide)⟩

/-! ### Claim C1: behaviour at the `max_steps` bound -/

/-- Counterexample to C1 as stated: in the run `cfgC1` (where
`max_steps = 1 > 0`), a batch of file 1 is still processed at a moment when
`global_step = 2` already exceeds `max_steps` — the `break` at line 644 exits
only the innermost batch loop, so a further file IS processed after the step
bound is exceeded. -/
theorem c1_counterexample :
    0 < cfgC1.maxSteps
    ∧ ((trainRun cfgC1).batches.filter
        (fun ev => decide (ev.fileIdx = 1 ∧ cfgC1.maxSteps < (ev.gsBefore : ℤ)))).length
      = 1 := by
  constructor
  · decide
  · decide

/-- C1 (amended): reaching the configured maximum step count breaks out of
only the innermost per-batch loop and raises no error; the per-epoch file
loop and the epoch loop continue, so every file index `0 … numFiles-2` of
every epoch still begins processing at least one batch, and once
`global_step` exceeds `maxSteps > 0` each subsequent file processes exactly
one batch before its inner loop breaks again. -/
theorem c1_amended (cfg : TrainCfg) (hB : 0 < cfg.batchesPerFile) :
    (∀ e, e < effEpochs cfg → ∀ f, f < cfg.numFiles - 1 →
      ∃ ev ∈ (trainRun cfg).batches, ev.epoch = e ∧ ev.fileIdx = f)
    ∧ (∀ (st : TrainSt) (e f : ℕ), 0 < cfg.maxSteps → cfg.maxSteps < (st.gs : ℤ) →
      (processFile cfg e f st).batches.length = st.batches.length + 1) := by
  constructor
  · intro e he f hf
    exact runEpochs_mem cfg hB (effEpochs cfg) 0 initSt e f (Nat.zero_le e)
      (by omega) hf
  · intro st e f hms hgs
    obtain ⟨m, hm⟩ := Nat.exists_eq_succ_of_ne_zero (Nat.pos_iff_ne_zero.mp hB)
    rw [processFile, hm]
    have hbrk : (processBatch cfg e f 0 st).2 = true := by
      rw [processBatch_brk, decide_eq_true_eq]
      have hmono := processBatch_gs_mono cfg e f 0 st
      exact ⟨hms, by omega⟩
    have hu : runBatches cfg e f (m + 1) 0 st =
        (if (processBatch cfg e f 0 st).2 = true then (processBatch cfg e f 0 st).1
         else runBatches cfg e f m 1 (processBatch cfg e f 0 st).1) := rfl
    rw [hu, if_pos hbrk, processBatch_batches, List.length_append]
    rfl

/-- Witness for `c1_amended` at `cfgC1` and the exceeded state `stC1`. -/
theorem c1_amended_witness :
    (∃ ev ∈ (trainRun cfgC1).batches, ev.epoch = 0 ∧ ev.fileIdx = 1)
    ∧ (processFile cfgC1 0 1 stC1).batches.length = stC1.batches.length + 1 :=
  ⟨(c1_amended cfgC1 (by decide)).1 0 (by decide) 1 (by decide),
   (c1_amended cfgC1 (by decide)).2 stC1 0 1 (by decide) (by decide)⟩

/-! ### Claim C5: file iteration and gradient accumulation -/

/-- Counterexample to C5 as stated: in the run `cfgC5b` (1 epoch, files 0
and 1 processed, 3 batches per file, `gradient_accumulation_steps = 2`,
`max_steps = -1`), 6 batches are consumed but `global_step` is incremented
only 2 times, not once per 2 consumed batches — the per-file reset of the
`step` counter leaves each file's odd tail batch without an accumulation
boundary. -/
theorem c5_counterexample :
    (trainRun cfgC5b).batches.length = 6
    ∧ (trainRun cfgC5b).gs = 2
    ∧ (trainRun cfgC5b).gs * cfgC5b.gradAccum ≠ (trainRun cfgC5b).batches.length := by
  refine ⟨by decide, by decide, by decide⟩

/-- C5 (amended): with `maxSteps ≤ 0` (the `-1` convention) and nonempty
files, every processed batch belongs to a file index `< numFiles - 1` (the
last file of each epoch is never processed) and every file index
`0 … numFiles-2` of every configured epoch is processed; the total batch
count is `epochs * (numFiles-1) * B`; gradient clipping, the optimizer step,
the learning-rate schedule advance, gradient zeroing and the `global_step`
increment all happen exactly at the batches whose within-file step index `s`
satisfies `(s + 1) % G = 0` — as many optimizer-step events as boundary
batches, and only at boundaries — so each file contributes `⌊B / G⌋`
increments and its `B mod G` tail batches are consumed without one (the
step counter resets at each file).  `global_step` therefore ends at
`epochs * (numFiles-1) * ⌊B / G⌋`, which equals exactly one increment per
`G` consumed batches precisely when `G` divides `B`. -/
theorem c5_amended (cfg : TrainCfg)
    (hms : cfg.maxSteps ≤ 0) (hB : 0 < cfg.batchesPerFile) :
    (∀ ev ∈ (trainRun cfg).batches, ev.fileIdx < cfg.numFiles - 1)
    ∧ (∀ e, e < cfg.numTrainEpochs → ∀ f, f < cfg.numFiles - 1 →
        ∃ ev ∈ (trainRun cfg).batches, ev.epoch = e ∧ ev.fileIdx = f)
    ∧ (trainRun cfg).batches.length
        = cfg.numTrainEpochs * ((cfg.numFiles - 1) * cfg.batchesPerFile)
    ∧ (trainRun cfg).gs
        = cfg.numTrainEpochs
          * ((cfg.numFiles - 1) * (cfg.batchesPerFile / cfg.gradAccum))
    ∧ (∀ o ∈ (trainRun cfg).opts, (o.stepInFile + 1) % cfg.gradAccum = 0)
    ∧ (trainRun cfg).opts.length = (trainRun cfg).batches.countP (bndP cfg)
    ∧ (cfg.gradAccum ∣ cfg.batchesPerFile →
        (trainRun cfg).gs * cfg.gradAccum = (trainRun cfg).batches.length) := by
  have hE := effEpochs_nonpos cfg hms
  have h0 := runEpochs_nobreak cfg hms (effEpochs cfg) 0 initSt
  have hgs : (trainRun cfg).gs
      = cfg.numTrainEpochs * ((cfg.numFiles - 1) * (cfg.batchesPerFile / cfg.gradAccum)) := by
    have h1 : (trainRun cfg).gs = initSt.gs
        + effEpochs cfg * ((cfg.numFiles - 1) * (cfg.batchesPerFile / cfg.gradAccum)) := h0.1
    rw [hE, show initSt.gs = 0 from rfl, Nat.zero_add] at h1
    exact h1
  have hlen : (trainRun cfg).batches.length
      = cfg.numTrainEpochs * ((cfg.numFiles - 1) * cfg.batchesPerFile) := by
    have h1 : (trainRun cfg).batches.length = initSt.batches.length
        + effEpochs cfg * ((cfg.numFiles - 1) * cfg.batchesPerFile) := h0.2
    rw [hE, show initSt.batches.length = 0 from rfl, Nat.zero_add] at h1
    exact h1
  refine ⟨?_, ?_, hlen, hgs, ?_, ?_, ?_⟩
  · obtain ⟨tb, htb, hp, -⟩ := runEpochs_spec cfg (effEpochs cfg) 0 initSt
    intro ev hev
    have hev' : ev ∈ initSt.batches ++ tb := by
      rw [← htb]; exact hev
    rw [show initSt.batches = [] from rfl, List.nil_append] at hev'
    exact (hp ev hev').2.2.1
  · intro e he f hf
    exact runEpochs_mem cfg hB (effEpochs cfg) 0 initSt e f (Nat.zero_le e)
      (by omega) hf
  · obtain ⟨t, ht, hp⟩ := runEpochs_opts_spec cfg (effEpochs cfg) 0 initSt
    intro o ho
    have ho' : o ∈ initSt.opts ++ t := by
      rw [← ht]; exact ho
    rw [show initSt.opts = [] from rfl, List.nil_append] at ho'
    exact hp o ho'
  · exact runEpochs_inv cfg (effEpochs cfg) 0 initSt rfl
  · intro hdvd
    rw [hgs, hlen]
    calc cfg.numTrainEpochs * ((cfg.numFiles - 1) * (cfg.batchesPerFile / cfg.gradAccum))
          * cfg.gradAccum
        = cfg.numTrainEpochs * ((cfg.numFiles - 1)
          * (cfg.batchesPerFile / cfg.gradAccum * cfg.gradAccum)) := by ring
      _ = cfg.numTrainEpochs * ((cfg.numFiles - 1) * cfg.batchesPerFile) := by
          rw [Nat.div_mul_cancel hdvd]

/-- Witness for `c5_amended` at the spec's end-to-end scenario `cfgC5`,
whose per-file batch count 2 is divisible by the accumulation factor 2:
4 optimizer steps for 8 consumed batches. -/
theorem c5_amended_witness :
    cfgC5.maxSteps ≤ 0
    ∧ (trainRun cfgC5).gs * cfgC5.gradAccum = (trainRun cfgC5).batches.length :=
  ⟨by decide,
   (c5_amended cfgC5 (by decide) (by decide)).2.2.2.2.2.2 (by decide)⟩

/-! ### Claim C6: mode derivation -/

/-- C6: for every run and every batch event of its trace, the `fb_mode`
pushed to the model just before the forward call is derived from the pushed
weight and the deterministic flag: with the flag set it is 2 regardless of
the weight; without the flag it is 0 when the weight is 0 and 1 when the
weight is positive. -/
theorem c6_mode_derivation (cfg : TrainCfg) (ev : BatchEv)
    (hev : ev ∈ (trainRun cfg).batches) :
    (cfg.useDeterministic = true → ev.fbMode = 2)
    ∧ (cfg.useDeterministic = false →
        ((ev.beta = 0 → ev.fbMode = 0) ∧ (0 < ev.beta → ev.fbMode = 1))) := by
  obtain ⟨tb, htb, hp, -⟩ := runEpochs_spec cfg (effEpochs cfg) 0 initSt
  have hev' : ev ∈ initSt.batches ++ tb := by
    rw [← htb]; exact hev
  rw [show initSt.batches = [] from rfl, List.nil_append] at hev'
  have hw := (hp ev hev').2.2.2
  constructor
  · intro hdet
    rw [hw]
    simp [fbModeOf, hdet]
  · intro hdet
    constructor
    · intro hb0
      rw [hw]
      simp [fbModeOf, hdet, hb0]
    · intro hbpos
      have hne : ¬ev.beta = 0 := by
        intro hc; rw [hc] at hbpos; exact lt_irrefl 0 hbpos
      rw [hw]
      simp [fbModeOf, hdet, hne]

/-- Witness for `c6_mode_derivation`: the first batch of `cfgC6` carries
weight 0 and mode 0. -/
theorem c6_mode_derivation_witness :
    (⟨0, 0, 0, 0, 0, 0⟩ : BatchEv) ∈ (trainRun cfgC6).batches
    ∧ (⟨0, 0, 0, 0, 0, 0⟩ : BatchEv).fbMode = 0 :=
  ⟨by decide,
   ((c6_mode_derivation cfgC6 ⟨0, 0, 0, 0, 0, 0⟩ (by decide)).2 (by decide)).1
     (by decide)⟩

/-! ### Claim C7: topology precondition failures -/

/-- C7: for any training configuration, `main` fails with the fatal
`AssertionError` of `gpu_indices` — before any training work — whenever
`localRank` is outside `[0, localSize)` or `deviceCount < localSize`; the
result does not depend on the training configuration, because `train` is
never entered. -/
theorem c7_topology_preconditions (gpu_count : ℕ) (local_size local_rank : ℤ)
    (d : Bool) (cfg : TrainCfg) :
    (¬(0 ≤ local_rank ∧ local_rank < local_size) →
      main_run gpu_count local_size local_rank d cfg = .error "Invalid local_rank")
    ∧ (0 ≤ local_rank → local_rank < local_size → (gpu_count : ℤ) < local_size →
      main_run gpu_count local_size local_rank d cfg
        = .error "GPU count must be at least LOCAL_SIZE and LOCAL_SIZE must be positive") := by
  constructor
  · intro h
    have hg : gpu_indices gpu_count local_size local_rank d
        = .error "Invalid local_rank" := by
      rw [gpu_indices, if_pos h]
    simp [main_run, hg]
  · intro h1 h2 h3
    have hg : gpu_indices gpu_count local_size local_rank d
        = .error "GPU count must be at least LOCAL_SIZE and LOCAL_SIZE must be positive" := by
      rw [gpu_indices, if_neg (not_not_intro ⟨h1, h2⟩), if_pos]
      rintro ⟨hle, -⟩
      omega
    simp [main_run, hg]

/-- Witness for `c7_topology_preconditions`: `localRank = 2, localSize = 2`
(out of range) and `deviceCount = 1, localSize = 2` (insufficient devices). -/
theorem c7_topology_preconditions_witness :
    main_run 4 2 2 true cfgC7 = .error "Invalid local_rank"
    ∧ main_run 1 2 0 true cfgC7
      = .error "GPU count must be at least LOCAL_SIZE and LOCAL_SIZE must be positive" :=
  ⟨(c7_topology_preconditions 4 2 2 true cfgC7).1 (by decide),
   (c7_topology_preconditions 1 2 0 true cfgC7).2 (by decide) (by decide) (by decide)⟩

/-! ### Claim C8: coordinator-only filesystem writes -/

/-- C8: on any rank other than the coordinator (`-1` or `0`), the training
loop performs no checkpoint filesystem effect at all (the `save_checkpoint`
call site at line 640 is rank-gated), and `save_checkpoint` itself creates
no directory on such a rank (lines 292-295, 356-357); so directory creation
and checkpoint saving are observable no-ops off the coordinator. -/
theorem c8_coordinator_only_writes (cfg : TrainCfg) (dir : String)
    (h1 : cfg.localRank ≠ -1) (h2 : cfg.localRank ≠ 0) :
    train_fs_effects cfg dir = []
    ∧ ∀ (gs : ℕ) (e1 e2 e3 : Bool),
        (save_checkpoint_fs cfg.localRank cfg.usePhilly dir gs e1 e2 e3).filter
          FsEffect.isMkdir = [] := by
  have hnc : ¬(cfg.localRank = -1 ∨ cfg.localRank = 0) := by
    rintro (hc | hc)
    · exact h1 hc
    · exact h2 hc
  constructor
  · have hsaves : (trainRun cfg).saves = [] :=
      runEpochs_saves_const cfg hnc (effEpochs cfg) 0 initSt
    rw [train_fs_effects, hsaves]
    rfl
  · intro gs e1 e2 e3
    simp [save_checkpoint_fs, hnc, FsEffect.isMkdir]

/-- Witness for `c8_coordinator_only_writes` at rank 1 (`cfgC8`, which would
save on every optimizer step if it were the coordinator). -/
theorem c8_coordinator_only_writes_witness :
    train_fs_effects cfgC8 "output" = []
    ∧ (save_checkpoint_fs cfgC8.localRank cfgC8.usePhilly "output" 7
        false false false).filter FsEffect.isMkdir = [] :=
  ⟨(c8_coordinator_only_writes cfgC8 "output" (by decide) (by decide)).1,
   (c8_coordinator_only_writes cfgC8 "output" (by decide) (by decide)).2
     7 false false false⟩

/-! ### Claim C9: schedule flag off means weight 0 everywhere -/

/-- C9: when `use_beta_schedule` is off, every batch event pushes weight 0
into the model (the configured target beta is overwritten by the initial
`beta_t = 0.0`, which is never updated), the derived mode is 0 unless the
deterministic flag forces 2, and the precomputed schedule is dead: the whole
run is unchanged under any replacement of the schedule list. -/
theorem c9_schedule_off (cfg : TrainCfg) (hoff : cfg.useBetaSchedule = false) :
    (∀ ev ∈ (trainRun cfg).batches, ev.beta = 0
      ∧ ev.fbMode = (if cfg.useDeterministic then 2 else 0))
    ∧ (∀ l : List ℚ, trainRun { cfg with betaList := l } = trainRun cfg) := by
  constructor
  · obtain ⟨tb, htb, hp, hbeta⟩ := runEpochs_spec cfg (effEpochs cfg) 0 initSt
    intro ev hev
    have hev' : ev ∈ initSt.batches ++ tb := by
      rw [← htb]; exact hev
    rw [show initSt.batches = [] from rfl, List.nil_append] at hev'
    have hb0 : ev.beta = 0 := (hbeta hoff).2 ev hev'
    refine ⟨hb0, ?_⟩
    have hw := (hp ev hev').2.2.2
    rw [hw, hb0]
    simp [fbModeOf]
  · intro l
    exact trainRun_betaList_congr cfg l hoff

/-- Witness for `c9_schedule_off` at `cfgC9` (whose dead schedule holds the
nonzero configured beta) and its single batch event. -/
theorem c9_schedule_off_witness :
    ((⟨0, 0, 0, 0, 0, 0⟩ : BatchEv).beta = 0
      ∧ (⟨0, 0, 0, 0, 0, 0⟩ : BatchEv).fbMode
        = (if cfgC9.useDeterministic then 2 else 0))
    ∧ trainRun { cfgC9 with betaList := [7] } = trainRun cfgC9 :=
  ⟨(c9_schedule_off cfgC9 (by decide)).1 ⟨0, 0, 0, 0, 0, 0⟩ (by decide),
   (c9_schedule_off cfgC9 (by decide)).2 [7]⟩

/-! ### Claim C10: division by zero when no optimizer step happens -/

/-- C10: if the corpus has at most one matching file (the per-epoch file
loop body never runs) or every file's batch count is below the accumulation
factor (no accumulation boundary is ever reached), then `train` finishes its
loops with `global_step = 0` and line 650 evaluates `tr_loss / global_step`,
failing with `ZeroDivisionError` instead of returning normally. -/
theorem c10_zero_division (cfg : TrainCfg)
    (h : cfg.numFiles ≤ 1 ∨ cfg.batchesPerFile < cfg.gradAccum) :
    (trainRun cfg).gs = 0 ∧ trainResult cfg = .error "ZeroDivisionError" := by
  have hgs : (trainRun cfg).gs = 0 := by
    rcases h with hF | hBG
    · rw [show trainRun cfg = runEpochs cfg (effEpochs cfg) 0 initSt from rfl,
        runEpochs_skip_files cfg hF (effEpochs cfg) 0 initSt]
      rfl
    · exact runEpochs_gs_const cfg hBG (effEpochs cfg) 0 initSt
  exact ⟨hgs, by simp [trainResult, hgs]⟩

/-- Witness for `c10_zero_division`: a single-file corpus (`cfgC10`). -/
theorem c10_zero_division_witness :
    (trainRun cfgC10).gs = 0 ∧ trainResult cfgC10 = .error "ZeroDivisionError" :=
  c10_zero_division cfgC10 (Or.inl (by decide))

end Optimus
